import Mathlib

/-!
Shallow embedding of the word-level circuit layer of py-aiger-bv
(packages `aigerbv` and `aiger_bv`) and verification of the frozen claims.

Word circuits are modelled at the word level: each synthesized gate is
embedded by its input/output function on bit vectors (`List Bool`, index 0
is the least significant bit, matching the `root[i]` bundle order), and the
bundle bookkeeping (`BundleMap`, composition operators) is embedded as
association lists from word names to bundle widths.  Fallible operations
(Python assertions, raised exceptions) are embedded with `Option`.
-/

/- ## Bit-level arithmetic gates (from `src/aigerbv/aigbv.py`) -/

/-- The `result` output of `_full_adder` (src/aigerbv/aigbv.py lines 166-171),
read off the AAG literal node by node:
n8 = y∧x, n10 = ¬y∧¬x, n12 = ¬n10∧¬n8, n14 = n12∧c, n16 = ¬n12∧¬c,
and output o0 is literal 18 = n18 = ¬n16∧¬n14. -/
def fullAdderResult (x y c : Bool) : Bool :=
  let n8 := y && x
  let n10 := !y && !x
  let n12 := !n10 && !n8
  let n14 := n12 && c
  let n16 := !n12 && !c
  !n16 && !n14

/-- The `carry_out` output of `_full_adder`: literal 21 = ¬n20 with
n20 = ¬n14∧¬n8. -/
def fullAdderCarry (x y c : Bool) : Bool :=
  let n8 := y && x
  let n10 := !y && !x
  let n12 := !n10 && !n8
  let n14 := n12 && c
  let n20 := !n14 && !n8
  !n20

/-- The ripple chain built by `adder` (src/aigerbv/aigbv.py lines 174-201):
bit i of the output is the full adder's `result` on the operands' bit i and
the running carry; the carry is threaded through the chain. -/
def rippleAdder : List Bool → List Bool → Bool → List Bool
  | x :: xs, y :: ys, c =>
      fullAdderResult x y c :: rippleAdder xs ys (fullAdderCarry x y c)
  | _, _, _ => []

/-- Word-level denotation of `adder` (carry-in seeded to constant `False`
by `common.source({carry_name: False})`; the trailing carry is sunk when
`has_carry` is false, so only the `wordlen` sum bits remain). -/
def adderEval (l r : List Bool) : List Bool := rippleAdder l r false

/-- Modelled from the spec: `negater` is called by `subtractor`
(src/aigerbv/aigbv.py line 205) but its definition is not among the given
source files.  Spec §4.3: negation is bitwise NOT then add-one-at-LSB
(two's complement).  `incBits` is the add-one-at-LSB half. -/
def incBits : List Bool → List Bool
  | [] => []
  | b :: bs => if b then false :: incBits bs else true :: bs

/-- Modelled from the spec: `negater` = bitwise NOT then increment. -/
def negater (bs : List Bool) : List Bool := incBits (bs.map not)

/-- Word-level denotation of `subtractor` (src/aigerbv/aigbv.py lines
204-206): negate the right operand, then add. -/
def subtractorEval (l r : List Bool) : List Bool := adderEval l (negater r)

/-- Bit pattern driven by `source(wordlen, value)` (src/aigerbv/aigbv.py
lines 154-163).  The code computes `value.to_bytes(wordlen, 'little')`,
i.e. a sequence of `wordlen` BYTES whose i-th element is
`value / 256^i % 256`, and zips those bytes with the `wordlen` bit names;
`common.source` then treats each byte as a boolean, so bit i is set iff
byte i is nonzero. -/
def sourceBits (wordlen value : Nat) : List Bool :=
  (List.range wordlen).map (fun i => decide ((value / 256 ^ i) % 256 ≠ 0))

/-- Little-endian decoding of an output bit tuple into the integer it
represents (bundle index 0 is the least significant bit). -/
def bitsToNat : List Bool → Nat
  | [] => 0
  | b :: bs => (if b then 1 else 0) + 2 * bitsToNat bs

/- ## Supporting fact: the ripple chain itself is correct -/

/-- The full adder primitive satisfies the usual sum/carry identity. -/
theorem fullAdder_identity (x y c : Bool) :
    (if fullAdderResult x y c then 1 else 0) +
      2 * (if fullAdderCarry x y c then 1 else 0) =
    (if x then 1 else 0) + (if y then 1 else 0) + (if c then 1 else 0) := by
  cases x <;> cases y <;> cases c <;> decide

/-- The ripple-carry chain computes addition modulo `2 ^ wordlen` on
correctly encoded operands: the failure exhibited in the claim theorems
below is therefore confined to `source`'s byte-for-bit encoding. -/
theorem rippleAdder_correct (xs : List Bool) : ∀ (ys : List Bool) (c : Bool),
    xs.length = ys.length →
    bitsToNat (rippleAdder xs ys c) =
      (bitsToNat xs + bitsToNat ys + (if c then 1 else 0)) % 2 ^ xs.length := by
  induction xs with
  | nil =>
      intro ys c h
      simp [rippleAdder, bitsToNat, Nat.mod_one]
  | cons x xs ih =>
      intro ys c h
      cases ys with
      | nil => simp at h
      | cons y ys =>
        simp only [List.length_cons, Nat.succ.injEq] at h
        simp only [rippleAdder, bitsToNat, List.length_cons]
        rw [ih ys (fullAdderCarry x y c) h]
        have hfa := fullAdder_identity x y c
        set S := bitsToNat xs + bitsToNat ys + (if fullAdderCarry x y c then 1 else 0) with hS
        have h2 : 2 ^ (xs.length + 1) = 2 * 2 ^ xs.length := by ring
        have hmul : 2 * S % 2 ^ (xs.length + 1) = 2 * (S % 2 ^ xs.length) := by
          rw [h2, Nat.mul_mod_mul_left]
        have hr : (if fullAdderResult x y c then 1 else 0) ≤ 1 := by
          cases fullAdderResult x y c <;> simp
        have hlt : (if fullAdderResult x y c then 1 else 0) + 2 * (S % 2 ^ xs.length)
            < 2 ^ (xs.length + 1) := by
          have : S % 2 ^ xs.length < 2 ^ xs.length :=
            Nat.mod_lt _ (Nat.pos_pow_of_pos _ (by omega))
          omega
        have hsum : (if x then 1 else 0) + 2 * bitsToNat xs +
              ((if y then 1 else 0) + 2 * bitsToNat ys) + (if c then 1 else 0)
            = (if fullAdderResult x y c then 1 else 0) + 2 * S := by
          rw [hS]; omega
        have hfr : (if fullAdderResult x y c then 1 else 0) < 2 ^ (xs.length + 1) := by
          have : (1 : Nat) ≤ 2 ^ (xs.length + 1) := Nat.one_le_two_pow
          omega
        rw [hsum]
        conv_rhs => rw [Nat.add_mod]
        rw [Nat.mod_eq_of_lt hfr, hmul, Nat.mod_eq_of_lt hlt]

/- ## Claim C5 -/

/-- C5: the claim states that evaluating the synthesized adder on constant
sources a, b yields (a + b) mod 2^n, e.g. 8 for n=8, a=5, b=3.  It does
not: `source` decomposes the constant into wordlen bytes instead of bits
(`value.to_bytes(wordlen, 'little')`), so sources 5 and 3 both drive the
bit pattern 00000001 and the adder's output decodes to 2, not 8. -/
theorem adder_on_constant_sources_deviates :
    bitsToNat (adderEval (sourceBits 8 5) (sourceBits 8 3)) ≠ (5 + 3) % 2 ^ 8 ∧
    bitsToNat (adderEval (sourceBits 8 5) (sourceBits 8 3)) = 2 := by
  constructor <;> decide

/- ## Claim C1 -/

/-- C1: the claim states that the subtractor on constant sources a=3, b=5
(wordlen 8) outputs (3 - 5) mod 256 = 254.  Because `source` encodes the
constants byte-wise, both constants drive the pattern 00000001 and the
subtractor computes 1 - 1 = 0 instead. -/
theorem subtractor_on_constant_sources_deviates :
    bitsToNat (subtractorEval (sourceBits 8 3) (sourceBits 8 5)) ≠ 254 ∧
    bitsToNat (subtractorEval (sourceBits 8 3) (sourceBits 8 5)) = 0 := by
  constructor <;> decide

/- ## Blast / unblast (from `src/aigerbv/aigbv.py` lines 13-23) -/

/-- `_blast(bvname2vals, name_map)`: for each `(bvname, names)` entry, zip
the bundle's bit names with the word value's bits and merge the resulting
dictionaries.  Looking up a word name absent from `bvname2vals` raises
`KeyError`, embedded as `none`. -/
def blastBV (bvname2vals : List (String × List Bool))
    (nameMap : List (String × List String)) : Option (List (String × Bool)) :=
  (nameMap.mapM (fun kv =>
    (bvname2vals.lookup kv.1).map (fun v => kv.2.zip v))).map List.flatten

/-- `_unblast(name2vals, name_map)`: the dict comprehension's body is
`collect(names)`, but only `_collect` is defined in the file and no
`collect` is importable, so Python raises `NameError` as soon as the body
is evaluated — i.e. whenever `name_map` is non-empty.  On an empty map the
comprehension never evaluates its body and yields the empty dict. -/
def unblastBV (_name2vals : List (String × Bool))
    (nameMap : List (String × List String)) :
    Option (List (String × List Bool)) :=
  match nameMap with
  | [] => some []
  | _ :: _ => none

/-- The round trip of the bundle round-trip claim: blast the word values,
then unblast the resulting bit values over the same map. -/
def blastRoundTrip (nameMap : List (String × List String))
    (v : List (String × List Bool)) : Option (List (String × List Bool)) :=
  (blastBV v nameMap).bind (fun bs => unblastBV bs nameMap)

/- ## Claim C3 -/

/-- C3: the claim states `unblast(m, blast(m, v)) == v` for every bundle
map `m` and word valuation `v` over `m`'s keys.  On the one-entry map
`x ↦ (x[0], x[1])` with `v = {x ↦ (1, 0)}` the round trip does not return
`v`: `_unblast` fails (its body calls the undefined name `collect`). -/
theorem bundle_roundtrip_fails :
    blastRoundTrip [("x", ["x[0]", "x[1]"])] [("x", [true, false])] ≠
      some [("x", [true, false])] ∧
    blastRoundTrip [("x", ["x[0]", "x[1]"])] [("x", [true, false])] = none := by
  constructor <;> decide

/- ## Word-circuit bundle bookkeeping (from `src/aiger_bv/aigbv.py`) -/

/-- A `BundleMap`, abstracted to its word-name → bundle-width bookkeeping.
Modelled from the spec where `aiger_bv/bundle.py` is not among the given
sources: an injective mapping from word-signal name to bundle (spec §3);
embedded as an association list keyed by word name. -/
abbrev BMap := List (String × Nat)

/-- The word names of a bundle map (`BundleMap.keys`). -/
def keys (m : BMap) : List String := m.map Prod.fst

/-- Lookup of a word name (`bmap[name]`); absent names fail
(spec §4.1 / §7: `UnknownSignal`). -/
def bmLookup (m : BMap) (k : String) : Option Nat := m.lookup k

/-- `BundleMap.omit`: drop the named entries (spec §4.1). -/
def bmOmit (m : BMap) (names : List String) : BMap :=
  m.filter (fun kv => decide (kv.1 ∉ names))

/-- Word-name overlap test used by the composition asserts
(`self.outputs & other.outputs` etc.). -/
def bmOverlaps (m1 m2 : BMap) : Bool :=
  m1.any (fun kv => decide (kv.1 ∈ keys m2))

/-- Modelled from the spec: `BundleMap.__add__` is disjoint union and
fails with `NameCollision` when the word-name sets overlap (spec §4.1). -/
def bmAdd (m1 m2 : BMap) : Option BMap :=
  if bmOverlaps m1 m2 then none else some (m1 ++ m2)

/-- `BundleMap.relabel`: rename word names, carrying bundles along
(spec §4.1); a key not mentioned by `relabels` keeps its name. -/
def bmRelabel (relabels : List (String × String)) (m : BMap) : BMap :=
  m.map (fun kv => ((relabels.lookup kv.1).getD kv.1, kv.2))

/-- A word circuit's bundle bookkeeping: the three BundleMaps of `AIGBV`
(src/aiger_bv/aigbv.py lines 12-17).  The underlying bit-level `aig` is
the external collaborator (spec §6) and is abstracted away; the claims
settled on this structure are about the maps and construction failures. -/
structure AIGBVm where
  imap : BMap
  omap : BMap
  lmap : BMap
deriving DecidableEq

/-- `interface = self.outputs & other.inputs` of `AIGBV.__rshift__`. -/
def interfaceOf (A B : AIGBVm) : List String :=
  (keys A.omap).filter (fun k => decide (k ∈ keys B.imap))

/-- `AIGBV.__rshift__` (src/aiger_bv/aigbv.py lines 48-58): the two
asserts, then the three BundleMap sums.  Assertion failures and
`NameCollision` from `+` are embedded as `none`. -/
def rshift (A B : AIGBVm) : Option AIGBVm :=
  let interface := interfaceOf A B
  if bmOverlaps A.lmap B.lmap then none
  else if bmOverlaps (bmOmit A.omap interface) B.omap then none
  else do
    let imap ← bmAdd A.imap (bmOmit B.imap interface)
    let omap ← bmAdd B.omap (bmOmit A.omap interface)
    let lmap ← bmAdd A.lmap B.lmap
    some ⟨imap, omap, lmap⟩

/-- The three signal kinds of `AIGBV.__getitem__`. -/
inductive MapKind
  | i
  | o
  | l
deriving DecidableEq

/-- The bundle map a kind selects (`{'i': 'imap', 'o': 'omap', 'l': 'lmap'}`). -/
def mapOf (C : AIGBVm) : MapKind → BMap
  | .i => C.imap
  | .o => C.omap
  | .l => C.lmap

/-- Replace the bundle map a kind selects (`attr.evolve`). -/
def setMap (C : AIGBVm) : MapKind → BMap → AIGBVm
  | .i, m => ⟨m, C.omap, C.lmap⟩
  | .o, m => ⟨C.imap, m, C.lmap⟩
  | .l, m => ⟨C.imap, C.omap, m⟩

/-- `AIGBV.__getitem__` (src/aiger_bv/aigbv.py lines 83-99): asserts that
no relabel target is already a word name of the selected map, then
relabels (the bit-level relabeling of the underlying aig is abstracted). -/
def getitem (C : AIGBVm) (kind : MapKind)
    (relabels : List (String × String)) : Option AIGBVm :=
  let bmap1 := mapOf C kind
  if relabels.any (fun kv => decide (kv.2 ∈ keys bmap1)) then none
  else some (setMap C kind (bmRelabel relabels bmap1))

/-- Modelled from the spec: `common.tee(w, {orig: [new1, new2]})` is a
fan-out gate duplicating the word input `orig` of width `w` into the two
outputs `new1`, `new2` (spec §4.2 and glossary). -/
def teeCirc (w : Nat) (orig new1 new2 : String) : AIGBVm :=
  ⟨[(orig, w)], [(new1, w), (new2, w)], []⟩

/-- `AIGBV.__or__` (src/aiger_bv/aigbv.py lines 60-81): after the shared
inputs are relabeled away on both sides and the circuits are placed side
by side, the code runs `circ <<= common.tee(len(self.imap[orig]), ...)`
for each shared name `orig`, where `self` is the ALREADY RELABELED left
circuit; the width lookup `self.imap[orig]` must succeed for the
composition to proceed.  `fresh1`/`fresh2` supply the `common._fresh()`
names chosen for the two sides. -/
def orCompose (A B : AIGBVm) (fresh1 fresh2 : String → String) :
    Option AIGBVm :=
  if bmOverlaps A.omap B.omap then none
  else if bmOverlaps A.lmap B.lmap then none
  else
    let shared := (keys A.imap).filter (fun k => decide (k ∈ keys B.imap))
    do
    let A2 ← if shared.isEmpty then some A
             else getitem A .i (shared.map (fun n => (n, fresh1 n)))
    let B2 ← if shared.isEmpty then some B
             else getitem B .i (shared.map (fun n => (n, fresh2 n)))
    let imap ← bmAdd A2.imap B2.imap
    let omap ← bmAdd A2.omap B2.omap
    let lmap ← bmAdd A2.lmap B2.lmap
    let circ : AIGBVm := ⟨imap, omap, lmap⟩
    shared.foldlM (fun c orig => do
      let w ← bmLookup A2.imap orig
      rshift (teeCirc w orig (fresh1 orig) (fresh2 orig)) c) circ

/-- `AIGBV.feedback` (src/aiger_bv/aigbv.py lines 101-123).  Latch names
default to the input names; the new latch bundle map pairs each latch with
the width of its input.  The underlying `self.aig.feedback` is the
external collaborator (spec §6), modelled as: the fed word inputs leave
the input map, the fed word outputs leave the output map (unless
`keep_outputs`), and the new latches join the latch map.  When `initials`
is given, the code computes `dict(aig.latch2init).update({...})` — which
is `None` in Python — and then subscripts it for each latch, raising
`TypeError` as soon as there is a latch; and the computed value is never
passed to the underlying feedback call in any case. -/
def feedback (C : AIGBVm) (inputs outputs : List String)
    (initials : Option (List (Option Nat))) (latches : Option (List String))
    (keepOutputs : Bool) : Option AIGBVm :=
  let latches := latches.getD inputs
  do
  let lmapEntries ← (inputs.zip latches).mapM
      (fun il => (bmLookup C.imap il.1).map (fun w => (il.2, w)))
  let result : AIGBVm :=
    ⟨bmOmit C.imap inputs,
     if keepOutputs then C.omap else bmOmit C.omap outputs,
     C.lmap ++ lmapEntries⟩
  match initials with
  | none => some result
  | some _ => if latches.isEmpty then some result else none

/- ## Facts about the bookkeeping -/

theorem bmOverlaps_eq_true_iff (m1 m2 : BMap) :
    bmOverlaps m1 m2 = true ↔ ∃ k, k ∈ keys m1 ∧ k ∈ keys m2 := by
  simp only [bmOverlaps, keys, List.any_eq_true, decide_eq_true_eq]
  constructor
  · rintro ⟨kv, hkv, hmem⟩
    exact ⟨kv.1, List.mem_map_of_mem _ hkv, hmem⟩
  · rintro ⟨k, hk1, hk2⟩
    rcases List.mem_map.mp hk1 with ⟨kv, hkv, rfl⟩
    exact ⟨kv, hkv, hk2⟩

theorem bmOverlaps_eq_false_iff (m1 m2 : BMap) :
    bmOverlaps m1 m2 = false ↔ ∀ k, k ∈ keys m1 → k ∉ keys m2 := by
  constructor
  · intro h k hk1 hk2
    have htrue : bmOverlaps m1 m2 = true :=
      (bmOverlaps_eq_true_iff m1 m2).mpr ⟨k, hk1, hk2⟩
    rw [h] at htrue
    exact Bool.false_ne_true htrue
  · intro h
    cases hb : bmOverlaps m1 m2
    · rfl
    · rcases (bmOverlaps_eq_true_iff m1 m2).mp hb with ⟨k, hk1, hk2⟩
      exact absurd hk2 (h k hk1)

theorem keys_append (m1 m2 : BMap) : keys (m1 ++ m2) = keys m1 ++ keys m2 :=
  List.map_append _ _ _

theorem mem_keys_bmOmit (m : BMap) (names : List String) (k : String) :
    k ∈ keys (bmOmit m names) ↔ k ∈ keys m ∧ k ∉ names := by
  simp only [bmOmit, keys, List.mem_map]
  constructor
  · rintro ⟨kv, hkv, rfl⟩
    rcases List.mem_filter.mp hkv with ⟨hmem, hcond⟩
    exact ⟨⟨kv, hmem, rfl⟩, of_decide_eq_true hcond⟩
  · rintro ⟨⟨kv, hkv, rfl⟩, hnot⟩
    exact ⟨kv, List.mem_filter.mpr ⟨hkv, decide_eq_true hnot⟩, rfl⟩

theorem bmLookup_append_left (m1 m2 : BMap) (k : String) (h : k ∈ keys m1) :
    bmLookup (m1 ++ m2) k = bmLookup m1 k := by
  induction m1 with
  | nil => simp [keys] at h
  | cons kv m1 ih =>
    obtain ⟨k1, v1⟩ := kv
    by_cases hk : k = k1
    · subst hk
      simp [bmLookup, List.lookup]
    · have hbeq : (k == k1) = false := by simp [hk]
      have h' : k ∈ keys m1 := by
        simp only [keys, List.map_cons, List.mem_cons] at h
        rcases h with h | h
        · exact absurd h hk
        · simpa [keys] using h
      simp only [bmLookup, List.cons_append, List.lookup, hbeq] at ih ⊢
      exact ih h'

/- ## Claim C2 -/

/-- C2: the claim states that parallel composition with a shared input
relabels both sides, composes a tee, and yields a circuit whose inputs
contain the shared name once.  On two one-bit circuits sharing input `x`
the composition instead fails: the tee loop evaluates
`len(self.imap[orig])` after `self` was relabeled, so the original name
`orig` is no longer a key of `self.imap` and the lookup fails. -/
theorem parallel_shared_input_composition_fails :
    orCompose (AIGBVm.mk [("x", 1)] [("a", 1)] [])
      (AIGBVm.mk [("x", 1)] [("b", 1)] [])
      (fun n => "fresh1." ++ n) (fun n => "fresh2." ++ n) = none := by
  rfl

/- ## Claim C7 -/

/-- C7: sequential composition of two circuits declaring the same output
name outside the interface fails at construction (the second assert of
`__rshift__`), and relabeling a signal to a name already used in that
kind's name set fails at construction (the assert of `__getitem__`);
neither silently proceeds. -/
theorem collision_rejection :
    (∀ A B : AIGBVm, ∀ z : String,
        z ∈ keys A.omap → z ∈ keys B.omap → z ∉ interfaceOf A B →
        rshift A B = none) ∧
    (∀ (C : AIGBVm) (kind : MapKind) (relabels : List (String × String))
        (pr : String × String), pr ∈ relabels → pr.2 ∈ keys (mapOf C kind) →
        getitem C kind relabels = none) := by
  constructor
  · intro A B z hA hB hI
    have hcond : bmOverlaps (bmOmit A.omap (interfaceOf A B)) B.omap = true := by
      rw [bmOverlaps_eq_true_iff]
      exact ⟨z, (mem_keys_bmOmit _ _ _).mpr ⟨hA, hI⟩, hB⟩
    unfold rshift
    cases hl : bmOverlaps A.lmap B.lmap
    · simp [hl, hcond]
    · simp [hl]
  · intro C kind relabels pr hpr hmem
    have hcond :
        (relabels.any (fun kv => decide (kv.2 ∈ keys (mapOf C kind)))) = true := by
      rw [List.any_eq_true]
      exact ⟨pr, hpr, decide_eq_true hmem⟩
    unfold getitem
    simp [hcond]

/-- Witness for C7 at concrete circuits: both circuits output `z` with no
interface between them; a relabel targets the existing input name `x`. -/
theorem collision_rejection_witness :
    rshift (AIGBVm.mk [] [("z", 1)] []) (AIGBVm.mk [] [("z", 2)] []) = none ∧
    getitem (AIGBVm.mk [("x", 1)] [] []) MapKind.i [("w", "x")] = none :=
  ⟨collision_rejection.1 (AIGBVm.mk [] [("z", 1)] [])
      (AIGBVm.mk [] [("z", 2)] []) "z" (by decide) (by decide) (by decide),
   collision_rejection.2 (AIGBVm.mk [("x", 1)] [] []) MapKind.i
      [("w", "x")] ("w", "x") (by decide) (by decide)⟩

/- ## Claim C4 -/

/-- Counterexample to C4 as stated: the two circuits below satisfy the
claim's precondition (disjoint latches — both have none — and no
non-interface output of A collides with an output of B; the interface is
empty), yet `A >> B` produces no result: both circuits declare the word
input `x`, so the claimed input map `inputs(A) ∪ (inputs(B) \ interface)`
is assembled with `BundleMap.__add__`, which fails with `NameCollision`
on the shared word name. -/
theorem rshift_stated_precondition_insufficient :
    interfaceOf (AIGBVm.mk [("x", 1)] [("o1", 1)] [])
      (AIGBVm.mk [("x", 1)] [("o2", 1)] []) = [] ∧
    bmOverlaps (AIGBVm.mk [("x", 1)] [("o1", 1)] []).lmap
      (AIGBVm.mk [("x", 1)] [("o2", 1)] []).lmap = false ∧
    bmOverlaps
      (bmOmit (AIGBVm.mk [("x", 1)] [("o1", 1)] []).omap
        (interfaceOf (AIGBVm.mk [("x", 1)] [("o1", 1)] [])
          (AIGBVm.mk [("x", 1)] [("o2", 1)] [])))
      (AIGBVm.mk [("x", 1)] [("o2", 1)] []).omap = false ∧
    rshift (AIGBVm.mk [("x", 1)] [("o1", 1)] [])
      (AIGBVm.mk [("x", 1)] [("o2", 1)] []) = none :=
  ⟨rfl, rfl, rfl, rfl⟩

/-- C4 (amended): when, in addition to the claim's precondition, A's word
inputs are disjoint from B's non-interface word inputs, `A >> B` succeeds
and its maps are as the claim states: input map
`inputs(A) ∪ (inputs(B) \ interface)`, output map
`outputs(B) ∪ (outputs(A) \ interface)` with B's definitions winning on
the interface (B's entries shadow on lookup), and latch map the disjoint
union.  The hypotheses are the exact assert/`NameCollision` guards. -/
theorem rshift_maps_characterized (A B : AIGBVm)
    (hl : bmOverlaps A.lmap B.lmap = false)
    (ho : bmOverlaps (bmOmit A.omap (interfaceOf A B)) B.omap = false)
    (hi : bmOverlaps A.imap (bmOmit B.imap (interfaceOf A B)) = false) :
    rshift A B = some (AIGBVm.mk
      (A.imap ++ bmOmit B.imap (interfaceOf A B))
      (B.omap ++ bmOmit A.omap (interfaceOf A B))
      (A.lmap ++ B.lmap)) ∧
    (∀ k, k ∈ keys (A.imap ++ bmOmit B.imap (interfaceOf A B)) ↔
        k ∈ keys A.imap ∨ (k ∈ keys B.imap ∧ k ∉ interfaceOf A B)) ∧
    (∀ k, k ∈ keys (B.omap ++ bmOmit A.omap (interfaceOf A B)) ↔
        k ∈ keys B.omap ∨ (k ∈ keys A.omap ∧ k ∉ interfaceOf A B)) ∧
    (∀ k, k ∈ keys (A.lmap ++ B.lmap) ↔
        k ∈ keys A.lmap ∨ k ∈ keys B.lmap) ∧
    (∀ k, k ∈ keys B.omap →
        bmLookup (B.omap ++ bmOmit A.omap (interfaceOf A B)) k =
          bmLookup B.omap k) := by
  have ho' : bmOverlaps B.omap (bmOmit A.omap (interfaceOf A B)) = false := by
    rw [bmOverlaps_eq_false_iff] at ho ⊢
    intro k hk hk'
    exact ho k hk' hk
  refine ⟨?_, ?_, ?_, ?_, ?_⟩
  · unfold rshift
    simp [bmAdd, hl, ho, hi, ho']
  · intro k
    simp [keys_append, List.mem_append, mem_keys_bmOmit]
  · intro k
    simp [keys_append, List.mem_append, mem_keys_bmOmit]
  · intro k
    simp [keys_append, List.mem_append]
  · intro k hk
    exact bmLookup_append_left _ _ _ hk

/-- Witness for the amended C4 at concrete circuits with interface `m`. -/
theorem rshift_maps_characterized_witness :
    bmOverlaps (AIGBVm.mk [("a", 2)] [("m", 2), ("o", 1)] [("la", 1)]).lmap
      (AIGBVm.mk [("m", 2), ("b", 1)] [("p", 2)] [("lb", 1)]).lmap = false ∧
    bmOverlaps
      (bmOmit (AIGBVm.mk [("a", 2)] [("m", 2), ("o", 1)] [("la", 1)]).omap
        (interfaceOf (AIGBVm.mk [("a", 2)] [("m", 2), ("o", 1)] [("la", 1)])
          (AIGBVm.mk [("m", 2), ("b", 1)] [("p", 2)] [("lb", 1)])))
      (AIGBVm.mk [("m", 2), ("b", 1)] [("p", 2)] [("lb", 1)]).omap = false ∧
    bmOverlaps (AIGBVm.mk [("a", 2)] [("m", 2), ("o", 1)] [("la", 1)]).imap
      (bmOmit (AIGBVm.mk [("m", 2), ("b", 1)] [("p", 2)] [("lb", 1)]).imap
        (interfaceOf (AIGBVm.mk [("a", 2)] [("m", 2), ("o", 1)] [("la", 1)])
          (AIGBVm.mk [("m", 2), ("b", 1)] [("p", 2)] [("lb", 1)]))) = false ∧
    rshift (AIGBVm.mk [("a", 2)] [("m", 2), ("o", 1)] [("la", 1)])
      (AIGBVm.mk [("m", 2), ("b", 1)] [("p", 2)] [("lb", 1)]) =
      some (AIGBVm.mk [("a", 2), ("b", 1)] [("p", 2), ("o", 1)]
        [("la", 1), ("lb", 1)]) :=
  ⟨rfl, rfl, rfl,
   (rshift_maps_characterized
      (AIGBVm.mk [("a", 2)] [("m", 2), ("o", 1)] [("la", 1)])
      (AIGBVm.mk [("m", 2), ("b", 1)] [("p", 2)] [("lb", 1)])
      rfl rfl rfl).1⟩

/- ## Claim C6 -/

/-- C6: the claim states that `feedback` turns each named input into a
latch fed by the named output and that a supplied per-latch initial value
becomes that latch's initial value.  The latch creation itself goes
through, but any call with explicit `initials` fails: the code computes
`dict(aig.latch2init).update({...})`, which is `None`, and then
subscripts it for each latch, raising `TypeError`; the computed initial
values are never passed to the underlying feedback call.  Without
`initials` the same call succeeds (second conjunct), so the failure is
precisely the claim's explicit-initial-value case. -/
theorem feedback_with_initials_fails :
    feedback (AIGBVm.mk [("x", 2)] [("o", 2)] []) ["x"] ["o"]
      (some [some 1]) none false = none ∧
    feedback (AIGBVm.mk [("x", 2)] [("o", 2)] []) ["x"] ["o"]
      none none false = some (AIGBVm.mk [] [] [("x", 2)]) :=
  ⟨rfl, rfl⟩

/- ## Bitwise gates and selection -/

/-- `bitwise_negate`: per-index bit flip (src/aigerbv/aigbv.py 117-125). -/
def bitwiseNegate (xs : List Bool) : List Bool := xs.map not

/-- `bitwise_and`: the AND primitive at each index independently
(`bitwise_binop`, src/aigerbv/aigbv.py 88-106). -/
def bitwiseAnd (xs ys : List Bool) : List Bool := List.zipWith and xs ys

/-- `bitwise_or`: the OR primitive at each index. -/
def bitwiseOr (xs ys : List Bool) : List Bool := List.zipWith or xs ys

/-- Modelled from the spec: `cmn.repeat` broadcasts a 1-bit signal into an
n-bit bundle (spec §4.3); `aiger_bv/common.py` is not among the given
sources. -/
def repeatBit (n : Nat) (b : Bool) : List Bool := List.replicate n b

/-- `ite` (src/aiger_bv/expr.py lines 188-192): broadcast the one-bit
test to the width of the true branch, then `(~test | t) & (test | f)`
bitwise. -/
def iteGate (test : Bool) (t f : List Bool) : List Bool :=
  let tb := repeatBit t.length test
  bitwiseAnd (bitwiseOr (bitwiseNegate tb) t) (bitwiseOr tb f)

/- ## Claim C8 -/

/-- C8: for equal-width branches the bit-masking multiplexer selects the
true branch when the test bit is 1 and the false branch when it is 0. -/
theorem ite_selects_branches (t f : List Bool) (h : t.length = f.length) :
    iteGate true t f = t ∧ iteGate false t f = f := by
  constructor
  · apply List.ext_getElem
    · simp [iteGate, bitwiseAnd, bitwiseOr, bitwiseNegate, repeatBit, h]
    · intro i h1 h2
      simp [iteGate, bitwiseAnd, bitwiseOr, bitwiseNegate, repeatBit]
  · apply List.ext_getElem
    · simp [iteGate, bitwiseAnd, bitwiseOr, bitwiseNegate, repeatBit, h]
    · intro i h1 h2
      simp [iteGate, bitwiseAnd, bitwiseOr, bitwiseNegate, repeatBit]

/-- Witness for C8 on concrete two-bit branches. -/
theorem ite_selects_branches_witness :
    ([true, false] : List Bool).length = ([false, true] : List Bool).length ∧
    iteGate true [true, false] [false, true] = [true, false] ∧
    iteGate false [true, false] [false, true] = [false, true] :=
  ⟨rfl, (ite_selects_branches [true, false] [false, true] rfl).1,
   (ite_selects_branches [true, false] [false, true] rfl).2⟩

/- ## Expression layer (src/aiger_bv/expr.py) -/

/-- An expression of the operator-overloading façade, abstracted to what
the claims need: the identity of its underlying `aigbv` object (the
`AIGBV` attrs class passes `eq=False`, so the `expr1.aigbv == expr2.aigbv`
test in `_binary_gate` is object identity, embedded as an id token), its
output word width `size`, and its denotation under the ambient input
valuation — an integer below `2 ^ size`. -/
structure BVExpr where
  circId : Nat
  size : Nat
  val : Nat
deriving DecidableEq

/-- `constk(k, size)` (src/aiger_bv/expr.py lines 11-18): a constant
source of the requested width (defaulting to the operand's width) with
the operand's inputs sunk.  Modelled from the spec for the absent
`cmn.source`/`cmn.sink`: the denotation is the constant `k`. -/
def constk (k : Nat) (sz : Option Nat) (e : BVExpr) (freshId : Nat) : BVExpr :=
  let n := sz.getD e.size
  BVExpr.mk freshId n (k % 2 ^ n)

/-- `_binary_gate(gate, expr1, expr2, same_circ)` (src/aiger_bv/expr.py
lines 167-180): when the operands' underlying circuit is the same object
and a `same_circ` shortcut is supplied, return the shortcut's circuit in
place of synthesizing the binary gate; otherwise place the circuits side
by side and sequence the gate (the fresh-output renaming of colliding
output names does not change the denotation and is abstracted). -/
def binaryGate (gateSem : Nat → Nat → Nat)
    (sameCirc : Option (BVExpr → BVExpr)) (e1 e2 : BVExpr)
    (freshId : Nat) : BVExpr :=
  match sameCirc with
  | some f =>
      if e1.circId = e2.circId then f e1
      else BVExpr.mk freshId e1.size (gateSem e1.val e2.val)
  | none => BVExpr.mk freshId e1.size (gateSem e1.val e2.val)

/-- Modelled from the spec: `cmn.subtract_gate` realizes the
two's-complement identity a - b = a + ~b + 1 modulo 2^n, with
`~b = 2^n - 1 - b` on n-bit values (spec §4.3). -/
def subGateSem (n a b : Nat) : Nat :=
  (a + (2 ^ n - 1 - b % 2 ^ n) + 1) % 2 ^ n

/-- Modelled from the spec: `cmn.bitwise_xor` is single-bit XOR at each
index, i.e. `Nat.xor` on n-bit values. -/
def xorGateSem (n a b : Nat) : Nat := Nat.xor (a % 2 ^ n) (b % 2 ^ n)

/-- Modelled from the spec: `cmn.ne_gate` reduces the bitwise XOR through
an OR tree into a single "is any bit set" bit (spec §4.3). -/
def neGateSem (n a b : Nat) : Nat :=
  if Nat.xor (a % 2 ^ n) (b % 2 ^ n) = 0 then 0 else 1

/-- `__sub__`: `_binary_gate(cmn.subtract_gate, self, other, constk(0))`. -/
def subExpr (e1 e2 : BVExpr) (freshId : Nat) : BVExpr :=
  binaryGate (subGateSem e1.size)
    (some (fun e => constk 0 none e freshId)) e1 e2 freshId

/-- `__xor__`: `_binary_gate(cmn.bitwise_xor, self, other, constk(0))`. -/
def xorExpr (e1 e2 : BVExpr) (freshId : Nat) : BVExpr :=
  binaryGate (xorGateSem e1.size)
    (some (fun e => constk 0 none e freshId)) e1 e2 freshId

/-- `__ne__`: `_binary_gate(cmn.ne_gate, self, other, constk(0, 1))`. -/
def neExpr (e1 e2 : BVExpr) (freshId : Nat) : BVExpr :=
  binaryGate (neGateSem e1.size)
    (some (fun e => constk 0 (some 1) e freshId)) e1 e2 freshId

/- ## Claim C9 -/

/-- C9: applying `-`, `^` or `!=` to an expression and itself (the same
underlying circuit object) takes the `same_circ` shortcut and returns the
composed constant, and that constant agrees with the generic two-operand
gate semantics: `e - e` and `e ^ e` denote the zero constant of `e`'s
width, `e != e` the one-bit constant 0. -/
theorem self_operation_constant_fold (e : BVExpr) (freshId : Nat)
    (h : e.val < 2 ^ e.size) :
    subExpr e e freshId = constk 0 none e freshId ∧
    (subExpr e e freshId).val = subGateSem e.size e.val e.val ∧
    (subExpr e e freshId).val = 0 ∧
    xorExpr e e freshId = constk 0 none e freshId ∧
    (xorExpr e e freshId).val = xorGateSem e.size e.val e.val ∧
    (xorExpr e e freshId).val = 0 ∧
    neExpr e e freshId = constk 0 (some 1) e freshId ∧
    (neExpr e e freshId).val = neGateSem e.size e.val e.val ∧
    (neExpr e e freshId).val = 0 := by
  have hm : e.val % 2 ^ e.size = e.val := Nat.mod_eq_of_lt h
  have hone : 1 ≤ 2 ^ e.size := Nat.one_le_two_pow
  have hsubsem : subGateSem e.size e.val e.val = 0 := by
    unfold subGateSem
    rw [hm]
    have hsum : e.val + (2 ^ e.size - 1 - e.val) + 1 = 2 ^ e.size := by omega
    rw [hsum, Nat.mod_self]
  have hx : Nat.xor (e.val % 2 ^ e.size) (e.val % 2 ^ e.size) = 0 :=
    Nat.xor_self _
  have hxorsem : xorGateSem e.size e.val e.val = 0 := by
    unfold xorGateSem
    exact hx
  have hnesem : neGateSem e.size e.val e.val = 0 := by
    simp [neGateSem, hx]
  refine ⟨?_, ?_, ?_, ?_, ?_, ?_, ?_, ?_, ?_⟩
  · simp [subExpr, binaryGate]
  · simp [subExpr, binaryGate, constk, hsubsem]
  · simp [subExpr, binaryGate, constk]
  · simp [xorExpr, binaryGate]
  · simp [xorExpr, binaryGate, constk, hxorsem]
  · simp [xorExpr, binaryGate, constk]
  · simp [neExpr, binaryGate]
  · simp [neExpr, binaryGate, constk, hnesem]
  · simp [neExpr, binaryGate, constk]

/-- Witness for C9 on a concrete 4-bit expression of value 9. -/
theorem self_operation_constant_fold_witness :
    (BVExpr.mk 3 4 9).val < 2 ^ (BVExpr.mk 3 4 9).size ∧
    (subExpr (BVExpr.mk 3 4 9) (BVExpr.mk 3 4 9) 7 =
        constk 0 none (BVExpr.mk 3 4 9) 7 ∧
      (subExpr (BVExpr.mk 3 4 9) (BVExpr.mk 3 4 9) 7).val =
        subGateSem (BVExpr.mk 3 4 9).size (BVExpr.mk 3 4 9).val
          (BVExpr.mk 3 4 9).val ∧
      (subExpr (BVExpr.mk 3 4 9) (BVExpr.mk 3 4 9) 7).val = 0 ∧
      xorExpr (BVExpr.mk 3 4 9) (BVExpr.mk 3 4 9) 7 =
        constk 0 none (BVExpr.mk 3 4 9) 7 ∧
      (xorExpr (BVExpr.mk 3 4 9) (BVExpr.mk 3 4 9) 7).val =
        xorGateSem (BVExpr.mk 3 4 9).size (BVExpr.mk 3 4 9).val
          (BVExpr.mk 3 4 9).val ∧
      (xorExpr (BVExpr.mk 3 4 9) (BVExpr.mk 3 4 9) 7).val = 0 ∧
      neExpr (BVExpr.mk 3 4 9) (BVExpr.mk 3 4 9) 7 =
        constk 0 (some 1) (BVExpr.mk 3 4 9) 7 ∧
      (neExpr (BVExpr.mk 3 4 9) (BVExpr.mk 3 4 9) 7).val =
        neGateSem (BVExpr.mk 3 4 9).size (BVExpr.mk 3 4 9).val
          (BVExpr.mk 3 4 9).val ∧
      (neExpr (BVExpr.mk 3 4 9) (BVExpr.mk 3 4 9) 7).val = 0) :=
  ⟨by decide, self_operation_constant_fold (BVExpr.mk 3 4 9) 7 (by decide)⟩

/- ## Claim C10 -/

/-- Modelled from the spec: the repeat gate broadcasts the single bit
into a `times`-bit bundle — all ones iff the bit is set. -/
def repeaterSem (times v : Nat) : Nat := if v = 0 then 0 else 2 ^ times - 1

/-- `UnsignedBVExpr.repeat` (src/aiger_bv/expr.py lines 63-67): asserts
`self.size == 1` (multi-bit repeat is explicitly unsupported), then
sequences the repeat gate under a fresh output name. -/
def exprRepeat (e : BVExpr) (times freshId : Nat) : Option BVExpr :=
  if e.size = 1 then
    some (BVExpr.mk freshId times (repeaterSem times e.val))
  else none

/-- C10: `repeat` fails at construction on any expression whose size is
not 1, and on a 1-bit expression returns an expression of size `times`. -/
theorem repeat_requires_single_bit (e : BVExpr) (times freshId : Nat) :
    (e.size ≠ 1 → exprRepeat e times freshId = none) ∧
    (e.size = 1 →
      ∃ r, exprRepeat e times freshId = some r ∧ r.size = times) := by
  constructor
  · intro h
    simp [exprRepeat, h]
  · intro h
    refine ⟨BVExpr.mk freshId times (repeaterSem times e.val), ?_, rfl⟩
    simp [exprRepeat, h]

/-- Witness for C10: a 3-bit expression is rejected, a 1-bit one is
broadcast to width 4. -/
theorem repeat_requires_single_bit_witness :
    exprRepeat (BVExpr.mk 0 3 5) 4 1 = none ∧
    (∃ r, exprRepeat (BVExpr.mk 2 1 1) 4 1 = some r ∧ r.size = 4) :=
  ⟨(repeat_requires_single_bit (BVExpr.mk 0 3 5) 4 1).1 (by decide),
   (repeat_requires_single_bit (BVExpr.mk 2 1 1) 4 1).2 rfl⟩
